import Mathlib

set_option autoImplicit false

namespace Elevo

/-!
Shallow embedding of the elevo state-machine engine.

The engine keeps per-machine mutable registries implemented as JS `Map`s
and plain objects keyed by strings.  We model every such registry as an
association list `List (String × β)` together with the three operations
the source uses: keyed read (`alookup`, modelling `Map.get` / property
read), keyed write (`aset`, modelling `Map.set` / property assignment,
which overwrites in place or appends), and keyed removal (`adel`,
modelling the `delete` operator).

Two engine variants appear in the repository and are both embedded here:
the main one (file `part_007`), whose `transition` handles clear-on-exit,
dynamic overrides, the wildcard entry hook and warns on an invalid
transition, and the `packages/core` variant, whose plain `transition` is
silent on an invalid transition and whose `currentStateProxy.transition`
additionally writes a caller-supplied context into the target state's
slot.  Watcher callbacks are modelled by numeric identities (`Nat`): the
identity stands for the JS function object, so `f !== fn` becomes
inequality of identities, and a transition returns the list of fired
watcher identities in firing order.  `console.warn` is modelled by a
warning counter on the machine state.
-/

/-- Association-list read, modelling JS `Map.get` and object property read:
the first entry with the key wins. -/
def alookup {β : Type} (k : String) : List (String × β) → Option β
  | [] => none
  | (k1, v) :: rest => if k1 = k then some v else alookup k rest

/-- Association-list write, modelling JS `Map.set` and object property
assignment: an existing entry is overwritten in place, otherwise the new
entry is appended (JS objects and `Map`s preserve insertion order). -/
def aset {β : Type} (k : String) (v : β) : List (String × β) → List (String × β)
  | [] => [(k, v)]
  | (k1, v1) :: rest => if k1 = k then (k, v) :: rest else (k1, v1) :: aset k v rest

/-- Association-list removal, modelling the JS `delete` operator. -/
def adel {β : Type} (k : String) : List (String × β) → List (String × β)
  | [] => []
  | (k1, v1) :: rest => if k1 = k then adel k rest else (k1, v1) :: adel k rest

/-- A state declaration as produced by the definition builder: a name, the
outgoing `(event, target)` pairs in declaration order, and the optional
static `clearOnExit` option (`none` models an absent option, handled by
the source's `?? false`). -/
structure StateDef where
  name : String
  transitions : List (String × String)
  clearOnExit : Option Bool
deriving DecidableEq

/-- The key under which the wildcard ("any state") entry watchers are
stored, source constant `watchEntryGlobalHook`. -/
def watchEntryGlobalHook : String := "__global__"

/-- The whole mutable state of one machine instance.  `warnings` counts
`console.warn` emissions; watcher lists hold the identities of the
registered callbacks in registration order. -/
structure Machine (α γ : Type) where
  id : String
  states : List StateDef
  initial : String
  current : String
  globalContext : Option γ
  globalLocked : Bool
  privateContexts : List (String × α)
  entryWatchers : List (String × List Nat)
  exitWatchers : List (String × List Nat)
  dynamicClearOnExit : List (String × Bool)
  warnings : Nat
deriving DecidableEq

/-- The compiled transition row of one state: `forEach` + `Map.set` over
the declared `(event, target)` pairs, so a later duplicate event
overwrites an earlier one. -/
def compileRow (ts : List (String × String)) : List (String × String) :=
  ts.foldl (fun acc p => aset p.1 p.2 acc) []

/-- The source's `stateMap`: `forEach` + `Map.set` keyed by state name, so
a later duplicate state declaration overwrites an earlier one. -/
def stateMapOf (defs : List StateDef) : List (String × StateDef) :=
  defs.foldl (fun acc d => aset d.name d acc) []

/-- The source's `transitionMap`, mapping each state name to its compiled
transition row. -/
def transitionMapOf (defs : List StateDef) : List (String × List (String × String)) :=
  defs.foldl (fun acc d => aset d.name (compileRow d.transitions) acc) []

/-- The compiled transition-table lookup `transitionMap.get(s)?.get(e)`. -/
def lookupTarget (defs : List StateDef) (s e : String) : Option String :=
  (alookup s (transitionMapOf defs)).bind (fun row => alookup e row)

/-- The declared state names, in declaration order. -/
def stateNames (defs : List StateDef) : List String :=
  defs.map StateDef.name

/-- Machine construction: throws (modelled by `Except.error`) when the
builder yields zero states, otherwise the first declared state becomes
both `initialState` and the starting `currentState`, and every registry
starts empty. -/
def createMachine (α γ : Type) (id : String) (defs : List StateDef) :
    Except String (Machine α γ) :=
  match defs with
  | [] => Except.error "Machine must have at least one state"
  | d :: _ =>
      Except.ok
        { id := id
          states := defs
          initial := d.name
          current := d.name
          globalContext := none
          globalLocked := false
          privateContexts := []
          entryWatchers := []
          exitWatchers := []
          dynamicClearOnExit := []
          warnings := 0 }

/-- Total wrapper around `createMachine` for building concrete machines in
closed statements; on the (never exercised) empty input it yields an inert
empty machine. -/
def createMachineD (α γ : Type) (id : String) (defs : List StateDef) : Machine α γ :=
  match createMachine α γ id defs with
  | Except.ok m => m
  | Except.error _ =>
      { id := id
        states := []
        initial := ""
        current := ""
        globalContext := none
        globalLocked := false
        privateContexts := []
        entryWatchers := []
        exitWatchers := []
        dynamicClearOnExit := []
        warnings := 0 }

/-- The watcher identities registered for a key (empty when no list was
ever created), modelling `entryWatchers[state]` with optional chaining. -/
def watchersFor (ws : List (String × List Nat)) (s : String) : List Nat :=
  (alookup s ws).getD []

/-- The exited state's static option, source expression
`currentStateDef?.options?.clearOnExit ?? false`. -/
def staticClearOnExit (defs : List StateDef) (s : String) : Bool :=
  ((alookup s (stateMapOf defs)).bind (fun d => d.clearOnExit)).getD false

/-- The main engine's `transition` (file `part_007`): on a successful
lookup of a truthy, declared target it fires exit watchers of the exited
state, clears the exited state's private context when the dynamic
override for the event (if installed) or else the static option says so,
moves `current`, then fires the target's entry watchers followed by the
wildcard entry watchers; otherwise it warns and changes nothing.  Returns
the updated machine and the fired watcher identities in firing order. -/
def transition {α γ : Type} (m : Machine α γ) (event : String) :
    Machine α γ × List Nat :=
  match lookupTarget m.states m.current event with
  | some target =>
      if target ≠ "" ∧ (alookup target (stateMapOf m.states)).isSome = true then
        let exitFired := watchersFor m.exitWatchers m.current
        let shouldClear :=
          match alookup event m.dynamicClearOnExit with
          | some b => b
          | none => staticClearOnExit m.states m.current
        let pc :=
          if shouldClear then adel m.current m.privateContexts else m.privateContexts
        let entryFired := watchersFor m.entryWatchers target
        let globalFired := watchersFor m.entryWatchers watchEntryGlobalHook
        ({ m with current := target, privateContexts := pc },
          exitFired ++ entryFired ++ globalFired)
      else
        ({ m with warnings := m.warnings + 1 }, [])
  | none => ({ m with warnings := m.warnings + 1 }, [])

/-- The `packages/core` variant's plain `transition`: same guard, no
clear-on-exit machinery, no wildcard hook, and silently does nothing on an
invalid transition. -/
def coreTransition {α γ : Type} (m : Machine α γ) (event : String) :
    Machine α γ × List Nat :=
  match lookupTarget m.states m.current event with
  | some target =>
      if target ≠ "" ∧ (alookup target (stateMapOf m.states)).isSome = true then
        let exitFired := watchersFor m.exitWatchers m.current
        let entryFired := watchersFor m.entryWatchers target
        ({ m with current := target }, exitFired ++ entryFired)
      else (m, [])
  | none => (m, [])

/-- The `packages/core` variant's `currentStateProxy.transition(event,
context?)`: like `coreTransition`, but when a context is supplied it is
written into the slot keyed by the target state before `current` moves. -/
def proxyTransition {α γ : Type} (m : Machine α γ) (event : String)
    (ctx : Option α) : Machine α γ × List Nat :=
  match lookupTarget m.states m.current event with
  | some target =>
      if target ≠ "" ∧ (alookup target (stateMapOf m.states)).isSome = true then
        let exitFired := watchersFor m.exitWatchers m.current
        let pc :=
          match ctx with
          | some c => aset target c m.privateContexts
          | none => m.privateContexts
        let entryFired := watchersFor m.entryWatchers target
        ({ m with current := target, privateContexts := pc },
          exitFired ++ entryFired)
      else (m, [])
  | none => (m, [])

/-- `can(state, event)`: true exactly when the compiled row of `state`
has an entry for `event`; false (never throwing) otherwise. -/
def can {α γ : Type} (m : Machine α γ) (state event : String) : Bool :=
  match alookup state (transitionMapOf m.states) with
  | some row => (alookup event row).isSome
  | none => false

/-- `setGlobalOnly`: the first call stores the value and locks the slot;
every later call only emits a warning. -/
def setGlobalOnly {α γ : Type} (m : Machine α γ) (ctx : γ) : Machine α γ :=
  if m.globalLocked = false then
    { m with globalContext := some ctx, globalLocked := true }
  else
    { m with warnings := m.warnings + 1 }

/-- `getContext(state)`: direct read of the private-context slot. -/
def getContext {α γ : Type} (m : Machine α γ) (state : String) : Option α :=
  alookup state m.privateContexts

/-- `setContext(state, context)`: direct overwrite of the slot. -/
def setContext {α γ : Type} (m : Machine α γ) (state : String) (c : α) :
    Machine α γ :=
  { m with privateContexts := aset state c m.privateContexts }

/-- The machine's `context` getter: the private context of the current
state. -/
def currentContext {α γ : Type} (m : Machine α γ) : Option α :=
  alookup m.current m.privateContexts

/-- `setClearContextOnExit(event, shouldClear)`: installs or overwrites
the dynamic override keyed by event. -/
def setClearContextOnExit {α γ : Type} (m : Machine α γ) (event : String)
    (b : Bool) : Machine α γ :=
  { m with dynamicClearOnExit := aset event b m.dynamicClearOnExit }

/-- `watchEntry(state, fn)`: appends the callback (identity `fid`) to the
state's entry-watcher list, creating the list if absent. -/
def watchEntry {α γ : Type} (m : Machine α γ) (s : String) (fid : Nat) :
    Machine α γ :=
  { m with entryWatchers := aset s (watchersFor m.entryWatchers s ++ [fid]) m.entryWatchers }

/-- The handle returned by the main engine's `watchEntry` (file
`part_007`): it assigns `entryWatchers[state] = []`, wiping the whole
list for that state regardless of which callback it was created for. -/
def unsubscribeEntry {α γ : Type} (m : Machine α γ) (s : String) : Machine α γ :=
  { m with entryWatchers := aset s [] m.entryWatchers }

/-- The handle returned by the `packages/core` variant's `watchEntry`: it
filters the registered callback's identity out of the list. -/
def unsubscribeEntryCore {α γ : Type} (m : Machine α γ) (s : String) (fid : Nat) :
    Machine α γ :=
  { m with
    entryWatchers := aset s ((watchersFor m.entryWatchers s).filter (fun f => f ≠ fid)) m.entryWatchers }

/-- `watchExit(state, fn)`: appends to the state's exit-watcher list. -/
def watchExit {α γ : Type} (m : Machine α γ) (s : String) (fid : Nat) :
    Machine α γ :=
  { m with exitWatchers := aset s (watchersFor m.exitWatchers s ++ [fid]) m.exitWatchers }

/-- The handle returned by `watchExit` (both variants): filters the
callback's identity out of the list. -/
def unsubscribeExit {α γ : Type} (m : Machine α γ) (s : String) (fid : Nat) :
    Machine α γ :=
  { m with
    exitWatchers := aset s ((watchersFor m.exitWatchers s).filter (fun f => f ≠ fid)) m.exitWatchers }

/-- `watchEntryGlobal(fn)`: appends to the wildcard entry-watcher list. -/
def watchEntryGlobal {α γ : Type} (m : Machine α γ) (fid : Nat) : Machine α γ :=
  watchEntry m watchEntryGlobalHook fid

/-- The export shape produced by `toXStateJSON`; `states` maps each state
name to its `on` record of `event ↦ target`. -/
structure XStateConfig where
  id : String
  initial : String
  states : List (String × List (String × String))
deriving DecidableEq

/-- `toXStateJSON()`: projects id, the construction-time initial state,
and for each declared state an `on` object rebuilt from its declared
transitions by property assignment (the same last-wins folding as the
transition table); options, contexts and watchers do not appear. -/
def toXStateJSON {α γ : Type} (m : Machine α γ) : XStateConfig :=
  { id := m.id
    initial := m.initial
    states := m.states.foldl (fun acc d => aset d.name (compileRow d.transitions) acc) [] }

/-- One call on the main engine's public mutating surface, used to state
invariants over arbitrary call sequences. -/
inductive Op (α γ : Type) where
  | fire (e : String)
  | setGlobal (v : γ)
  | setCtx (s : String) (v : α)
  | setClear (e : String) (b : Bool)
  | subEntry (s : String) (fid : Nat)
  | unsubEntry (s : String)
  | subExit (s : String) (fid : Nat)
  | unsubExit (s : String) (fid : Nat)
  | subEntryGlobal (fid : Nat)

/-- Interpretation of one public call on the main engine. -/
def applyOp {α γ : Type} (m : Machine α γ) : Op α γ → Machine α γ
  | Op.fire e => (transition m e).1
  | Op.setGlobal v => setGlobalOnly m v
  | Op.setCtx s v => setContext m s v
  | Op.setClear e b => setClearContextOnExit m e b
  | Op.subEntry s fid => watchEntry m s fid
  | Op.unsubEntry s => unsubscribeEntry m s
  | Op.subExit s fid => watchExit m s fid
  | Op.unsubExit s fid => unsubscribeExit m s fid
  | Op.subEntryGlobal fid => watchEntryGlobal m fid

/-!  Helper lemmas about the registry operations and the compiled maps. -/

theorem alookup_aset {β : Type} (k k1 : String) (v : β) (l : List (String × β)) :
    alookup k (aset k1 v l) = if k1 = k then some v else alookup k l := by
  induction l with
  | nil => by_cases h : k1 = k <;> simp [aset, alookup, h]
  | cons p rest ih =>
    obtain ⟨k2, v2⟩ := p
    by_cases h2 : k2 = k1
    · subst h2
      by_cases h : k2 = k
      · subst h
        simp [aset, alookup]
      · simp [aset, alookup, h]
    · by_cases h : k2 = k
      · subst h
        have hne : ¬ k1 = k2 := fun hh => h2 hh.symm
        simp [aset, alookup, h2, hne]
      · simp [aset, alookup, h2, h, ih]

theorem alookup_adel {β : Type} (k k1 : String) (l : List (String × β)) :
    alookup k (adel k1 l) = if k1 = k then none else alookup k l := by
  induction l with
  | nil => by_cases h : k1 = k <;> simp [adel, alookup, h]
  | cons p rest ih =>
    obtain ⟨k2, v2⟩ := p
    by_cases h2 : k2 = k1
    · subst h2
      by_cases h : k2 = k
      · subst h
        simp [adel, alookup, ih]
      · simp [adel, alookup, h, ih]
    · by_cases h : k2 = k
      · subst h
        have hne : ¬ k1 = k2 := fun hh => h2 hh.symm
        simp [adel, alookup, h2, hne]
      · simp [adel, alookup, h2, h, ih]

theorem alookup_foldl_aset_of_not_mem (e : String) (l : List (String × String))
    (acc : List (String × String)) (h : e ∉ l.map Prod.fst) :
    alookup e (l.foldl (fun acc p => aset p.1 p.2 acc) acc) = alookup e acc := by
  induction l generalizing acc with
  | nil => rfl
  | cons p rest ih =>
    simp only [List.map_cons, List.mem_cons] at h
    push_neg at h
    simp only [List.foldl_cons]
    rw [ih _ h.2, alookup_aset]
    have hne : ¬ p.1 = e := fun hh => h.1 hh.symm
    simp [hne]

theorem alookup_foldl_stateMap_of_not_mem (k : String) (defs : List StateDef)
    (acc : List (String × StateDef)) (h : k ∉ stateNames defs) :
    alookup k (defs.foldl (fun a d => aset d.name d a) acc) = alookup k acc := by
  induction defs generalizing acc with
  | nil => rfl
  | cons d0 rest ih =>
    simp only [stateNames, List.map_cons, List.mem_cons] at h
    push_neg at h
    simp only [List.foldl_cons]
    rw [ih _ (by simpa [stateNames] using h.2), alookup_aset]
    have hne : ¬ d0.name = k := fun hh => h.1 hh.symm
    simp [hne]

theorem mem_stateNames_of_alookup {k : String} {defs : List StateDef} {d : StateDef}
    (h : alookup k (stateMapOf defs) = some d) : k ∈ stateNames defs := by
  by_contra hk
  rw [stateMapOf, alookup_foldl_stateMap_of_not_mem k defs [] hk] at h
  simp [alookup] at h

theorem alookup_stateMapOf_of_not_mem {k : String} {defs : List StateDef}
    (h : k ∉ stateNames defs) : alookup k (stateMapOf defs) = none := by
  rw [stateMapOf, alookup_foldl_stateMap_of_not_mem k defs [] h]
  rfl

theorem transition_states {α γ : Type} (m : Machine α γ) (e : String) :
    (transition m e).1.states = m.states := by
  unfold transition
  split <;> first | (split <;> rfl) | rfl

theorem transition_current_mem {α γ : Type} (m : Machine α γ) (e : String)
    (h : m.current ∈ stateNames m.states) :
    (transition m e).1.current ∈ stateNames (transition m e).1.states := by
  rw [transition_states]
  unfold transition
  split
  · next t heq =>
    split
    · next hg =>
      obtain ⟨d, hd⟩ := Option.isSome_iff_exists.mp hg.2
      simpa using mem_stateNames_of_alookup hd
    · simpa using h
  · simpa using h

theorem applyOp_states {α γ : Type} (m : Machine α γ) (op : Op α γ) :
    (applyOp m op).states = m.states := by
  cases op with
  | fire e => exact transition_states m e
  | setGlobal v =>
      show (setGlobalOnly m v).states = m.states
      unfold setGlobalOnly
      split <;> rfl
  | setCtx s v => rfl
  | setClear e b => rfl
  | subEntry s fid => rfl
  | unsubEntry s => rfl
  | subExit s fid => rfl
  | unsubExit s fid => rfl
  | subEntryGlobal fid => rfl

theorem applyOp_current_mem {α γ : Type} (m : Machine α γ) (op : Op α γ)
    (h : m.current ∈ stateNames m.states) :
    (applyOp m op).current ∈ stateNames (applyOp m op).states := by
  rw [applyOp_states]
  cases op with
  | fire e =>
      have := transition_current_mem m e h
      rwa [transition_states] at this
  | setGlobal v =>
      show (setGlobalOnly m v).current ∈ stateNames m.states
      unfold setGlobalOnly
      split <;> exact h
  | setCtx s v => exact h
  | setClear e b => exact h
  | subEntry s fid => exact h
  | unsubEntry s => exact h
  | subExit s fid => exact h
  | unsubExit s fid => exact h
  | subEntryGlobal fid => exact h

theorem foldl_applyOp_current_mem {α γ : Type} (ops : List (Op α γ)) :
    ∀ m : Machine α γ, m.current ∈ stateNames m.states →
      (ops.foldl applyOp m).current ∈ stateNames (ops.foldl applyOp m).states := by
  induction ops with
  | nil => intro m h; exact h
  | cons op rest ih =>
      intro m h
      exact ih _ (applyOp_current_mem m op h)

theorem foldl_setGlobalOnly_locked {α γ : Type} (vs : List γ) :
    ∀ m : Machine α γ, m.globalLocked = true →
      vs.foldl setGlobalOnly m = { m with warnings := m.warnings + vs.length } := by
  induction vs with
  | nil => intro m h; simp
  | cons v rest ih =>
      intro m h
      have hstep : setGlobalOnly m v = { m with warnings := m.warnings + 1 } := by
        simp [setGlobalOnly, h]
      rw [List.foldl_cons, hstep, ih { m with warnings := m.warnings + 1 } h]
      simp only [Machine.mk.injEq, List.length_cons, true_and, and_true]
      omega

/-- A small two-state machine, `a --go--> b` and `b --back--> a`, used to
instantiate hypotheses of the general theorems at concrete inputs. -/
def demoDefs : List StateDef :=
  [⟨"a", [("go", "b")], none⟩, ⟨"b", [("back", "a")], none⟩]

theorem transition_success_shape {α γ : Type} (m : Machine α γ) (e t : String)
    (hT : lookupTarget m.states m.current e = some t) (hne : t ≠ "")
    (hdecl : (alookup t (stateMapOf m.states)).isSome = true) :
    transition m e =
      ({ m with
          current := t
          privateContexts :=
            (if (match alookup e m.dynamicClearOnExit with
                  | some b => b
                  | none => staticClearOnExit m.states m.current) = true
              then adel m.current m.privateContexts
              else m.privateContexts) },
        watchersFor m.exitWatchers m.current ++ watchersFor m.entryWatchers t ++
          watchersFor m.entryWatchers watchEntryGlobalHook) := by
  unfold transition
  split
  · next t0 heq =>
      rw [hT] at heq
      injection heq with heq2
      subst heq2
      rw [if_pos ⟨hne, hdecl⟩]
  · next heq =>
      rw [hT] at heq
      cases heq

theorem proxyTransition_success_shape {α γ : Type} (m : Machine α γ) (e t : String)
    (c : α) (hT : lookupTarget m.states m.current e = some t) (hne : t ≠ "")
    (hdecl : (alookup t (stateMapOf m.states)).isSome = true) :
    proxyTransition m e (some c) =
      ({ m with
          current := t
          privateContexts := aset t c m.privateContexts },
        watchersFor m.exitWatchers m.current ++ watchersFor m.entryWatchers t) := by
  unfold proxyTransition
  split
  · next t0 heq =>
      rw [hT] at heq
      injection heq with heq2
      subst heq2
      rw [if_pos ⟨hne, hdecl⟩]
  · next heq =>
      rw [hT] at heq
      cases heq

/-!  Claims. -/

/-- C1: for every machine and every `(state, event)` pair with no entry in
the compiled transition table, `can state event` returns `false` (it is a
total function, so it never throws, also for names never declared), and
calling `transition event` while `current = state` only bumps the warning
counter: `current`, both context stores, the watcher registries and the
override table are all left unchanged and no watcher fires. -/
theorem claim1_unknown_pair_is_noop {α γ : Type} (m : Machine α γ) (s e : String)
    (hnone : lookupTarget m.states s e = none) :
    can m s e = false ∧
      (m.current = s →
        transition m e = ({ m with warnings := m.warnings + 1 }, [])) := by
  constructor
  · unfold can
    unfold lookupTarget at hnone
    cases hrow : alookup s (transitionMapOf m.states) with
    | none => rfl
    | some row =>
        rw [hrow] at hnone
        simp only [Option.some_bind] at hnone
        simp [hnone]
  · intro hcur
    subst hcur
    unfold transition
    rw [hnone]

/-- Witness for C1 on the demo machine: the pair `(a, nope)` has no table
entry, `can` is false there, and firing `nope` from `a` only warns. -/
theorem claim1_witness :
    can (createMachineD Nat Nat "w1" demoDefs) "a" "nope" = false ∧
      transition (createMachineD Nat Nat "w1" demoDefs) "nope" =
        ({ createMachineD Nat Nat "w1" demoDefs with warnings := 1 }, []) := by
  have h := claim1_unknown_pair_is_noop (createMachineD Nat Nat "w1" demoDefs)
    "a" "nope" (by decide)
  exact ⟨h.1, h.2 (by decide)⟩

/-- C6: for every machine constructed from a non-empty declaration
sequence, construction succeeds and `current` (and the recorded initial
state) equal the first declared state's name, whatever the remaining
declarations are. -/
theorem claim6_initial_is_first_declared (α γ : Type) (id : String)
    (d : StateDef) (rest : List StateDef) :
    ∃ m : Machine α γ, createMachine α γ id (d :: rest) = Except.ok m ∧
      m.current = d.name ∧ m.initial = d.name :=
  ⟨_, rfl, rfl, rfl⟩

/-- C7: `createMachine` fails (with the construction-time error, yielding
no machine) exactly when the builder yields zero state declarations. -/
theorem claim7_empty_machine_rejected (α γ : Type) (id : String)
    (defs : List StateDef) :
    (∃ err, createMachine α γ id defs = Except.error err) ↔ defs = [] := by
  cases defs with
  | nil =>
      exact ⟨fun _ => rfl, fun _ => ⟨"Machine must have at least one state", rfl⟩⟩
  | cons d rest =>
      constructor
      · rintro ⟨err, h⟩
        simp [createMachine] at h
      · intro h
        exact absurd h (List.cons_ne_nil d rest)

/-- C8: the machine declared as `s1 : [(e1, s2)]`, `s2 : [(e2, s1)]`
exports exactly `{id, initial := s1, states := {s1 : {on := {e1 ↦ s2}},
s2 : {on := {e2 ↦ s1}}}}` — the initial field is the first declared
state, and no options, contexts or watchers occur in the output. -/
theorem claim8_xstate_export_exact (id : String) :
    toXStateJSON (createMachineD Nat Nat id
        [⟨"s1", [("e1", "s2")], none⟩, ⟨"s2", [("e2", "s1")], none⟩]) =
      { id := id, initial := "s1",
        states := [("s1", [("e1", "s2")]), ("s2", [("e2", "s1")])] } := rfl

/-- C9: when one declared state lists two transitions on the same event,
the compiled table maps `(state, event)` to the later target (the last
registered duplicate wins), and construction neither fails nor warns. -/
theorem claim9_duplicate_event_last_wins (α γ : Type) (mid s e t1 t2 : String)
    (o : Option Bool) (l1 l2 l3 : List (String × String))
    (h3 : e ∉ l3.map Prod.fst) :
    lookupTarget [⟨s, l1 ++ [(e, t1)] ++ l2 ++ [(e, t2)] ++ l3, o⟩] s e = some t2 ∧
      ∃ m : Machine α γ,
        createMachine α γ mid [⟨s, l1 ++ [(e, t1)] ++ l2 ++ [(e, t2)] ++ l3, o⟩] =
            Except.ok m ∧
          m.warnings = 0 := by
  constructor
  · unfold lookupTarget transitionMapOf
    simp only [List.foldl_cons, List.foldl_nil]
    rw [alookup_aset, if_pos rfl]
    simp only [Option.some_bind]
    unfold compileRow
    simp only [List.foldl_append, List.foldl_cons, List.foldl_nil]
    rw [alookup_foldl_aset_of_not_mem e l3 _ h3, alookup_aset]
    simp
  · exact ⟨_, rfl, rfl⟩

/-- Witness for C9: the single state `s` declares `e ↦ u1`, then `x ↦ v`,
then `e ↦ u2`; the compiled table yields `u2` and construction is clean. -/
theorem claim9_witness :
    lookupTarget [⟨"s", [("e", "u1"), ("x", "v"), ("e", "u2")], none⟩] "s" "e" =
        some "u2" ∧
      ∃ m : Machine Nat Nat,
        createMachine Nat Nat "m9" [⟨"s", [("e", "u1"), ("x", "v"), ("e", "u2")], none⟩] =
            Except.ok m ∧
          m.warnings = 0 :=
  claim9_duplicate_event_last_wins Nat Nat "m9" "s" "e" "u1" "u2" none
    [] [("x", "v")] [] (by decide)

/-- C2: on every successful transition, the clear decision is taken by the
dynamic override installed for the event when present (its boolean wins in
both directions), and by the exited state's static `clearOnExit`
(defaulting to false) otherwise; when the decision is true exactly the
exited state's context slot is removed — every other slot, in particular
the target's, is untouched — and when it is false the context store is
unchanged. -/
theorem claim2_clear_decision {α γ : Type} (m : Machine α γ) (e t : String)
    (hT : lookupTarget m.states m.current e = some t) (hne : t ≠ "")
    (hdecl : (alookup t (stateMapOf m.states)).isSome = true) :
    (alookup e m.dynamicClearOnExit = some true →
        getContext (transition m e).1 m.current = none ∧
        ∀ s, s ≠ m.current → getContext (transition m e).1 s = getContext m s) ∧
    (alookup e m.dynamicClearOnExit = some false →
        (transition m e).1.privateContexts = m.privateContexts) ∧
    (alookup e m.dynamicClearOnExit = none →
        (staticClearOnExit m.states m.current = true →
            getContext (transition m e).1 m.current = none ∧
            ∀ s, s ≠ m.current → getContext (transition m e).1 s = getContext m s) ∧
        (staticClearOnExit m.states m.current = false →
            (transition m e).1.privateContexts = m.privateContexts)) := by
  rw [transition_success_shape m e t hT hne hdecl]
  refine ⟨?_, ?_, ?_⟩
  · intro hdyn
    constructor
    · simp [hdyn, getContext, alookup_adel]
    · intro s hs
      have hs2 : ¬ m.current = s := fun hh => hs hh.symm
      simp [hdyn, getContext, alookup_adel, hs2]
  · intro hdyn
    simp [hdyn]
  · intro hdyn
    constructor
    · intro hstat
      constructor
      · simp [hdyn, hstat, getContext, alookup_adel]
      · intro s hs
        have hs2 : ¬ m.current = s := fun hh => hs hh.symm
        simp [hdyn, hstat, getContext, alookup_adel, hs2]
    · intro hstat
      simp [hdyn, hstat]

/-- A demo machine for C2: private context 7 stored on `a`, whose static
`clearOnExit` is absent (so false), with the dynamic override
`setClearContextOnExit("go", true)` installed. -/
def claim2Machine : Machine Nat Nat :=
  setClearContextOnExit (setContext (createMachineD Nat Nat "w2" demoDefs) "a" 7) "go" true

/-- Witness for C2: on `claim2Machine` the override forces clearing of the
exited state `a` even though its static option is false, and the target
state's slot is untouched. -/
theorem claim2_witness :
    getContext (transition claim2Machine "go").1 "a" = none ∧
      getContext (transition claim2Machine "go").1 "b" = getContext claim2Machine "b" := by
  have h := claim2_clear_decision claim2Machine "go" "b" (by decide) (by decide) (by decide)
  have h1 := h.1 (by decide)
  exact ⟨h1.1, h1.2 "b" (by decide)⟩

/-- C3: on a machine whose global slot is not yet locked, the first
`setGlobalOnly` stores the value; any later sequence of calls leaves the
machine unchanged except for one warning per call — the stored value (and
everything else) is retained, and no call throws (all calls are total). -/
theorem claim3_global_write_once {α γ : Type} (m : Machine α γ) (v1 v2 : γ)
    (vs : List γ) (h : m.globalLocked = false) :
    ((v2 :: vs).foldl setGlobalOnly (setGlobalOnly m v1)).globalContext = some v1 ∧
    (v2 :: vs).foldl setGlobalOnly (setGlobalOnly m v1) =
      { m with
        globalContext := some v1
        globalLocked := true
        warnings := m.warnings + (v2 :: vs).length } ∧
    (setGlobalOnly m v1).globalContext = some v1 := by
  have h1 : setGlobalOnly m v1 =
      { m with globalContext := some v1, globalLocked := true } := by
    simp [setGlobalOnly, h]
  rw [h1, foldl_setGlobalOnly_locked (v2 :: vs)
    { m with globalContext := some v1, globalLocked := true } rfl]
  exact ⟨rfl, rfl, rfl⟩

/-- Witness for C3: on a fresh demo machine, `setGlobalOnly 1` then
`setGlobalOnly 2` then `setGlobalOnly 3` retains 1 and warns twice. -/
theorem claim3_witness :
    (([2, 3] : List Nat).foldl setGlobalOnly
        (setGlobalOnly (createMachineD Nat Nat "w3" demoDefs) 1)).globalContext =
      some 1 ∧
    ([2, 3] : List Nat).foldl setGlobalOnly
        (setGlobalOnly (createMachineD Nat Nat "w3" demoDefs) 1) =
      { createMachineD Nat Nat "w3" demoDefs with
        globalContext := some 1
        globalLocked := true
        warnings := 2 } := by
  have h := claim3_global_write_once (createMachineD Nat Nat "w3" demoDefs)
    1 2 [3] (by decide)
  exact ⟨h.1, h.2.1⟩

/-- C5: when the proxy `transition(event, context)` succeeds with a
supplied context, the value lands in the slot keyed by the target (the new
current state): afterwards `getContext target` and the machine's `context`
getter both yield the supplied value, and every other slot — in
particular the exited state's — is untouched by the write. -/
theorem claim5_context_written_to_target {α γ : Type} (m : Machine α γ)
    (e t : String) (c : α)
    (hT : lookupTarget m.states m.current e = some t) (hne : t ≠ "")
    (hdecl : (alookup t (stateMapOf m.states)).isSome = true) :
    (proxyTransition m e (some c)).1.current = t ∧
    getContext (proxyTransition m e (some c)).1 t = some c ∧
    currentContext (proxyTransition m e (some c)).1 = some c ∧
    ∀ s, s ≠ t → getContext (proxyTransition m e (some c)).1 s = getContext m s := by
  rw [proxyTransition_success_shape m e t c hT hne hdecl]
  refine ⟨rfl, ?_, ?_, ?_⟩
  · simp [getContext, alookup_aset]
  · simp [currentContext, alookup_aset]
  · intro s hs
    have hs2 : ¬ t = s := fun hh => hs hh.symm
    simp [getContext, alookup_aset, hs2]

/-- A demo machine for C5: private context 5 pre-seeded on `a`. -/
def claim5Machine : Machine Nat Nat :=
  setContext (createMachineD Nat Nat "w5" demoDefs) "a" 5

/-- Witness for C5: `transition("go", 9)` from `a` lands in `b` with
context 9 in `b`'s slot and the machine's context getter, while `a`'s
slot still holds 5. -/
theorem claim5_witness :
    (proxyTransition claim5Machine "go" (some 9)).1.current = "b" ∧
    getContext (proxyTransition claim5Machine "go" (some 9)).1 "b" = some 9 ∧
    currentContext (proxyTransition claim5Machine "go" (some 9)).1 = some 9 ∧
    getContext (proxyTransition claim5Machine "go" (some 9)).1 "a" =
      getContext claim5Machine "a" := by
  have h := claim5_context_written_to_target claim5Machine "go" "b" 9
    (by decide) (by decide) (by decide)
  exact ⟨h.1, h.2.1, h.2.2.1, h.2.2.2 "a" (by decide)⟩

/-- The demo machine with entry watchers W1 (identity 1) and then W2
(identity 2) registered on state `b`. -/
def claim4Machine : Machine Nat Nat :=
  watchEntry (watchEntry (createMachineD Nat Nat "w4" demoDefs) "b" 1) "b" 2

/-- C4, evaluated at the failing input: with W1 then W2 registered on `b`,
entering `b` fires W1 before W2 (first half of the claim); but invoking
the main engine's unsubscribe handle for `b` (which assigns the empty
list) and entering `b` again fires nothing at all — W2 is gone too,
contradicting the claim — while the `packages/core` filter-based handle
removes exactly W1, after which entry into `b` still fires W2. -/
theorem claim4_unsubscribe_clears_whole_list :
    (transition claim4Machine "go").2 = [1, 2] ∧
    (transition (unsubscribeEntry claim4Machine "b") "go").2 = [] ∧
    (transition (unsubscribeEntryCore claim4Machine "b" 1) "go").2 = [2] := by
  decide

/-- A one-state machine whose only edge points at the undeclared name
`zzz`. -/
def claim10Defs : List StateDef := [⟨"a", [("go", "zzz")], none⟩]

/-- C10: after any sequence of public operations starting from a freshly
constructed machine, `current` is a declared state name; and for an edge
whose looked-up target was never declared as a state, `can` is
nevertheless true while firing the event is a no-op: the main engine
changes nothing but its warning counter, and the `packages/core` engine
returns the machine fully unchanged (a silent no-op). -/
theorem claim10_current_always_declared {α γ : Type} (id : String)
    (d : StateDef) (rest : List StateDef) (m0 : Machine α γ)
    (ops : List (Op α γ))
    (h0 : createMachine α γ id (d :: rest) = Except.ok m0) :
    (ops.foldl applyOp m0).current ∈ stateNames ((ops.foldl applyOp m0).states) ∧
    ∀ (mm : Machine α γ) (e t : String),
      lookupTarget mm.states mm.current e = some t →
      t ∉ stateNames mm.states →
      can mm mm.current e = true ∧
      transition mm e = ({ mm with warnings := mm.warnings + 1 }, []) ∧
      coreTransition mm e = (mm, []) := by
  constructor
  · apply foldl_applyOp_current_mem
    unfold createMachine at h0
    injection h0 with h1
    rw [← h1]
    simp [stateNames]
  · intro mm e t hT ht
    have hnone : alookup t (stateMapOf mm.states) = none :=
      alookup_stateMapOf_of_not_mem ht
    have hg : ¬ (t ≠ "" ∧ (alookup t (stateMapOf mm.states)).isSome = true) := by
      rw [hnone]
      simp
    refine ⟨?_, ?_, ?_⟩
    · unfold can
      unfold lookupTarget at hT
      cases hrow : alookup mm.current (transitionMapOf mm.states) with
      | none =>
          rw [hrow] at hT
          cases hT
      | some row =>
          rw [hrow] at hT
          simp only [Option.some_bind] at hT
          simp [hT]
    · unfold transition
      split
      · next t0 heq =>
          rw [hT] at heq
          injection heq with h2
          subst h2
          rw [if_neg hg]
      · next heq =>
          rw [hT] at heq
    · unfold coreTransition
      split
      · next t0 heq =>
          rw [hT] at heq
          injection heq with h2
          subst h2
          rw [if_neg hg]
      · next heq =>
          rw [hT] at heq

/-- Witness for C10 on `claim10Defs`: after firing the undeclared-target
edge (twice, with a context write in between) `current` is still the
declared `a`; `can(a, go)` is true although firing `go` only warns on the
main engine and does nothing at all on the core engine. -/
theorem claim10_witness :
    (([Op.fire "go", Op.setCtx "a" 4, Op.fire "go"] : List (Op Nat Nat)).foldl applyOp
        (createMachineD Nat Nat "w10" claim10Defs)).current ∈
      stateNames ((([Op.fire "go", Op.setCtx "a" 4, Op.fire "go"] : List (Op Nat Nat)).foldl
          applyOp (createMachineD Nat Nat "w10" claim10Defs)).states) ∧
    can (createMachineD Nat Nat "w10" claim10Defs) "a" "go" = true ∧
    transition (createMachineD Nat Nat "w10" claim10Defs) "go" =
      ({ createMachineD Nat Nat "w10" claim10Defs with warnings := 1 }, []) ∧
    coreTransition (createMachineD Nat Nat "w10" claim10Defs) "go" =
      (createMachineD Nat Nat "w10" claim10Defs, []) := by
  have h := claim10_current_always_declared "w10" ⟨"a", [("go", "zzz")], none⟩ []
    (createMachineD Nat Nat "w10" claim10Defs)
    [Op.fire "go", Op.setCtx "a" 4, Op.fire "go"] rfl
  have h2 := h.2 (createMachineD Nat Nat "w10" claim10Defs) "go" "zzz"
    (by decide) (by decide)
  exact ⟨h.1, h2.1, h2.2.1, h2.2.2⟩

end Elevo
